import Mathlib

/-!
Shallow embedding of the `machine_rules` rule-evaluation engine.

Source files embedded here:
* `machine_rules/api/execution_set.py` — `Rule`, `RuleExecutionSet`
* `machine_rules/adapters/machine_adapter.py` — `MachineRuleSession`
  (`add_facts`, `execute`, `close`, `reset`)
* `machine_rules/security/safe_evaluator.py` — `safe_eval`

Modelling conventions:
* Facts have type `α`, rule-action results type `β` (both opaque to the
  engine, as in the source).
* A Python callable that may raise is modelled as a function into
  `Except String _`; the `.error` case is a raised exception (the string
  is the message).
* A rule action returning Python `None` is `Except.ok none`.
* Python dicts used as property bags are association lists.
* Python strings handled by the sandbox are `List Char`.
-/

namespace MachineRules

/-- `execution_set.Rule`: name, condition callable, action callable, priority.
The condition's result is used as a boolean (`if rule.condition(fact):`);
the action's result is checked against `None` (`if result is not None:`).
Either callable may raise. -/
structure Rule (α β : Type) where
  name : String
  condition : α → Except String Bool
  action : α → Except String (Option β)
  priority : Int

/-- A Python value stored in a property dict: a string or some non-string
value (only equality with a string literal is ever performed on it). -/
inductive PropValue where
  | str (s : String)
  | int (n : Int)
  | bool (b : Bool)
deriving DecidableEq

/-- Python `strategy == 'FIRST_MATCH'`: comparing a non-string value with a
string is `False` (never an error). -/
def PropValue.eqStr (v : PropValue) (s : String) : Bool :=
  match v with
  | .str t => t == s
  | _ => false

/-- A property dict `Dict[str, Any]`. -/
abbrev Properties := List (String × PropValue)

/-- Python `d.get(key, default)`. -/
def Properties.getD (ps : Properties) (key : String) (default : PropValue) :
    PropValue :=
  match ps.lookup key with
  | some v => v
  | none => default

/-- The sort key order used by `RuleExecutionSet.__init__`:
`sorted(rules, key=lambda r: r.priority, reverse=True)` places `a` before
`b` exactly when `b.priority ≤ a.priority` (descending), and Python's sort
is stable. -/
def byPriorityDesc {α β : Type} (a b : Rule α β) : Prop :=
  b.priority ≤ a.priority

instance {α β : Type} : DecidableRel (byPriorityDesc (α := α) (β := β)) :=
  fun a b => inferInstanceAs (Decidable (b.priority ≤ a.priority))

instance {α β : Type} : IsTotal (Rule α β) byPriorityDesc :=
  ⟨fun a b => le_total b.priority a.priority⟩

instance {α β : Type} : IsTrans (Rule α β) byPriorityDesc :=
  ⟨fun _ _ _ hab hbc => le_trans hbc hab⟩

/-- The stable descending sort performed at construction time
(Python's `sorted` is a stable sort; `List.insertionSort` is stable for
the same order). -/
def sortRulesDesc {α β : Type} (rules : List (Rule α β)) : List (Rule α β) :=
  rules.insertionSort byPriorityDesc

/-- `execution_set.RuleExecutionSet` (raw field record). -/
structure RuleExecutionSet (α β : Type) where
  name : String
  rules : List (Rule α β)
  properties : Properties

/-- `RuleExecutionSet.__init__`: stores the rules sorted by priority
descending (stable) and the property dict (`properties or {}` — a missing
dict is the empty list here). -/
def RuleExecutionSet.make {α β : Type} (name : String)
    (rules : List (Rule α β)) (properties : Properties) :
    RuleExecutionSet α β :=
  ⟨name, sortRulesDesc rules, properties⟩

/-- `RuleExecutionSet.get_rules`. -/
def RuleExecutionSet.get_rules {α β : Type} (es : RuleExecutionSet α β) :
    List (Rule α β) :=
  es.rules

/-- `RuleExecutionSet.get_properties` (returns a copy; copying is identity
on immutable values). -/
def RuleExecutionSet.get_properties {α β : Type} (es : RuleExecutionSet α β) :
    Properties :=
  es.properties

/-- `machine_adapter.MachineRuleSession` state. `closed` is `_closed`. -/
structure MachineRuleSession (α β : Type) where
  execution_set : RuleExecutionSet α β
  facts : List α
  results : List β
  closed : Bool
  stateless : Bool

/-- `MachineRuleSession.__init__`. -/
def MachineRuleSession.new {α β : Type} (execution_set : RuleExecutionSet α β)
    (stateless : Bool) : MachineRuleSession α β :=
  ⟨execution_set, [], [], false, stateless⟩

/-- `MachineRuleSession.add_facts` (the `isinstance(facts, list)` check is
discharged by typing). -/
def MachineRuleSession.add_facts {α β : Type} (s : MachineRuleSession α β)
    (facts : List α) : Except String (MachineRuleSession α β) :=
  if s.closed then .error "Session is closed"
  else .ok { s with facts := s.facts ++ facts }

/-- The inner rule loop of `MachineRuleSession.execute` for one fact:
`try: if rule.condition(fact): result = rule.action(fact); if result is not
None: append; if strategy == 'FIRST_MATCH': break — except: log, continue`.
Note the `break` sits inside the `try` after the action call, so a raising
condition or action always falls through to the next rule, even under
FIRST_MATCH. -/
def scanFact {α β : Type} (firstMatch : Bool) (rules : List (Rule α β))
    (f : α) : List β :=
  match rules with
  | [] => []
  | r :: rest =>
    match r.condition f with
    | .error _ => scanFact firstMatch rest f
    | .ok false => scanFact firstMatch rest f
    | .ok true =>
      match r.action f with
      | .error _ => scanFact firstMatch rest f
      | .ok none => if firstMatch then [] else scanFact firstMatch rest f
      | .ok (some v) =>
        if firstMatch then [v] else v :: scanFact firstMatch rest f

/-- The outer fact loop of `MachineRuleSession.execute`: facts in insertion
order, results appended in order. -/
def runFacts {α β : Type} (firstMatch : Bool) (rules : List (Rule α β)) :
    List α → List β
  | [] => []
  | f :: rest => scanFact firstMatch rules f ++ runFacts firstMatch rules rest

/-- `MachineRuleSession.execute`: closed-session guard, strategy lookup
`get_properties().get('strategy', 'ALL_MATCHES')`, `self.results = []`
then the nested loop, clearing facts when stateless, returning
`self.results.copy()` (a copy is the same value here). -/
def MachineRuleSession.execute {α β : Type} (s : MachineRuleSession α β) :
    Except String (List β × MachineRuleSession α β) :=
  if s.closed then .error "Session is closed"
  else
    let strategy :=
      Properties.getD s.execution_set.get_properties "strategy"
        (PropValue.str "ALL_MATCHES")
    let results :=
      runFacts (strategy.eqStr "FIRST_MATCH") s.execution_set.get_rules
        s.facts
    let remaining := if s.stateless then [] else s.facts
    .ok (results, { s with results := results, facts := remaining })

/-- `MachineRuleSession.close` (no closed-session guard: always clears both
buffers and marks closed). -/
def MachineRuleSession.close {α β : Type} (s : MachineRuleSession α β) :
    MachineRuleSession α β :=
  { s with facts := [], results := [], closed := true }

/-- `MachineRuleSession.reset`. -/
def MachineRuleSession.reset {α β : Type} (s : MachineRuleSession α β) :
    Except String (MachineRuleSession α β) :=
  if s.closed then .error "Session is closed"
  else .ok { s with facts := [], results := [] }

/-! ### Expression sandbox (`security/safe_evaluator.py`)

Expression strings handled by the sandbox are modelled as `List Char`
(Python `str` is a sequence of characters; `.lower()`, `.strip()` and the
`in` substring test are the only operations the embedded code performs).
The third-party `simpleeval` evaluator is an external collaborator: it is
a parameter, and its outcome is classified by the exception type the
embedded `try/except` clauses dispatch on. -/

/-- Outcome of `EvalWithCompoundTypes(names=names).eval(expression)`:
a value, or a raised exception classified the way `safe_eval`'s `except`
clauses classify it (`NameNotDefined`/`FunctionNotDefined`/
`AttributeDoesNotExist` — one case; `SyntaxError`; anything else). -/
inductive SimpleResult (V : Type) where
  | ok (v : V)
  | nameNotDefined (msg : List Char)
  | syntaxError (msg : List Char)
  | otherError (msg : List Char)

/-- Outcome of `safe_eval`: a value, a raised `SecurityError`, or a raised
`ValueError` (these are the only exception types `safe_eval` itself
raises; `SecurityError` is the `SecurityViolation` of the design). -/
inductive EvalOutcome (V : Type) where
  | ok (v : V)
  | securityError (msg : List Char)
  | valueError (msg : List Char)

/-- Whether an outcome is a raised `SecurityError`. -/
def EvalOutcome.isSecurityError {V : Type} : EvalOutcome V → Bool
  | .securityError _ => true
  | _ => false

/-- ASCII whitespace recognised by Python's `str.strip()`. -/
def isPySpace (c : Char) : Bool :=
  c == ' ' || c == '\t' || c == '\n' || c == '\r' ||
    c == Char.ofNat 11 || c == Char.ofNat 12

/-- Python `expression.strip()`. -/
def pyStrip (s : List Char) : List Char :=
  ((s.dropWhile isPySpace).reverse.dropWhile isPySpace).reverse

/-- Python `s.lower()` (character-wise). -/
def pyLower (s : List Char) : List Char :=
  s.map Char.toLower

/-- Python `s.startswith(pat)` on character lists. -/
def charListPrefix : List Char → List Char → Bool
  | [], _ => true
  | _ :: _, [] => false
  | a :: as, b :: bs => a == b && charListPrefix as bs

/-- Python `pat in s` (substring containment) on character lists. -/
def charListInfix (pat : List Char) : List Char → Bool
  | [] => charListPrefix pat []
  | c :: cs => charListPrefix pat (c :: cs) || charListInfix pat cs

/-- The `dangerous_patterns` list of `safe_eval`, in source order. -/
def dangerous_patterns : List (List Char) :=
  ["__import__", "__builtins__", "eval", "exec", "compile", "open",
   "__class__", "__base__", "__subclasses__", "__globals__", "__code__",
   "lambda"].map String.toList

/-- `safe_evaluator.safe_eval`. The `isinstance(expression, str)` guard is
discharged by typing and the `SIMPLEEVAL_AVAILABLE` guard by assuming the
library is installed (both precede everything modelled here).
`evaluator` is the external `simpleeval` evaluation,
already closed over the same `names` binding it receives. -/
def safe_eval {V N : Type} (evaluator : List Char → N → SimpleResult V)
    (expression : List Char) (names : N) : EvalOutcome V :=
  if pyStrip expression = [] then
    .valueError ("Expression cannot be empty".toList)
  else
    match dangerous_patterns.find?
        (fun p => charListInfix (pyLower p) (pyLower expression)) with
    | some p =>
      .securityError ("Expression contains dangerous pattern: ".toList ++ p)
    | none =>
      match evaluator expression names with
      | .ok v => .ok v
      | .nameNotDefined m =>
        .securityError
          ("Expression uses undefined or unsafe names: ".toList ++ m)
      | .syntaxError m =>
        .valueError ("Invalid expression syntax: ".toList ++ m)
      | .otherError m =>
        .securityError ("Expression evaluation failed: ".toList ++ m)

/-! ### Specification-side descriptions of the execution outputs -/

/-- Whether a rule's condition evaluates to true on a fact (a raising
condition is not true). -/
def condTrue {α β : Type} (f : α) (r : Rule α β) : Bool :=
  match r.condition f with
  | .ok true => true
  | _ => false

/-- The value a rule contributes for a fact under ALL_MATCHES: the
non-null result of `r.action f` when `r.condition f` is true, otherwise
nothing (a raising condition is not true; a raising action contributes no
value). -/
def ruleOutput {α β : Type} (f : α) (r : Rule α β) : Option β :=
  match r.condition f, r.action f with
  | .ok true, .ok (some v) => some v
  | _, _ => none

/-- Spec-side ALL_MATCHES output: for each fact in arrival order, for each
rule in the given (priority-descending) order, the non-null value of
`r.action f` for each rule whose condition is true. -/
def allMatchesOutputs {α β : Type} (rules : List (Rule α β))
    (facts : List α) : List β :=
  facts.flatMap fun f => rules.filterMap (ruleOutput f)

/-- The values one fact contributes under FIRST_MATCH: the non-null action
value of the first rule (in the given order) whose condition is true. -/
def firstOutput {α β : Type} (rules : List (Rule α β)) (f : α) : List β :=
  match rules.find? (condTrue f) with
  | some r =>
    match r.action f with
    | .ok (some v) => [v]
    | _ => []
  | none => []

/-- Spec-side FIRST_MATCH output: for each fact in arrival order, at most
one result, from the first rule whose condition is true. -/
def firstMatchOutputs {α β : Type} (rules : List (Rule α β))
    (facts : List α) : List β :=
  facts.flatMap (firstOutput rules)

/-! ### Concrete instances used by witnesses and counterexamples -/

/-- An always-matching rule whose action returns its priority. -/
def alwaysRule (nm : String) (p : Int) : Rule Unit Int :=
  ⟨nm, fun _ => Except.ok true, fun _ => Except.ok (some p), p⟩

/-- Three always-matching rules registered with priorities `[1, 10, 5]`. -/
def threeRules : List (Rule Unit Int) :=
  [alwaysRule "low" 1, alwaysRule "high" 10, alwaysRule "mid" 5]

/-- An open stateful session over `threeRules` with no strategy property
and one pending fact. -/
def allMatchesSession : MachineRuleSession Unit Int :=
  ⟨RuleExecutionSet.make "demo" threeRules [], [()], [], false, false⟩

/-- The same session with the FIRST_MATCH strategy property. -/
def firstMatchSession : MachineRuleSession Unit Int :=
  ⟨RuleExecutionSet.make "demo" threeRules
      [("strategy", PropValue.str "FIRST_MATCH")],
    [()], [], false, false⟩

/-- A session whose strategy property holds the lowercase string
`first_match` (an unrecognized value). -/
def lowercaseStrategySession : MachineRuleSession Unit Int :=
  ⟨RuleExecutionSet.make "demo" threeRules
      [("strategy", PropValue.str "first_match")],
    [()], [], false, false⟩

/-- The stateless counterpart of `allMatchesSession`. -/
def statelessSession : MachineRuleSession Unit Int :=
  ⟨RuleExecutionSet.make "demo" threeRules [], [()], [], false, true⟩

/-- A rule whose condition always raises. -/
def raisingRule : Rule Unit Int :=
  ⟨"raiser", fun _ => Except.error "boom", fun _ => Except.ok none, 10⟩

/-- A rule that always matches and returns 42. -/
def matchingRule : Rule Unit Int :=
  ⟨"matcher", fun _ => Except.ok true, fun _ => Except.ok (some 42), 5⟩

/-- An open session whose rule list interleaves a raising rule before a
matching rule. -/
def isolationSession : MachineRuleSession Unit Int :=
  ⟨⟨"demo", [raisingRule, matchingRule], []⟩, [()], [], false, false⟩

/-- An external evaluator raising `ZeroDivisionError`, as simpleeval does
on the expression `1/0` (a runtime error that is not a security
violation). -/
def divByZeroEvaluator : List Char → Unit → SimpleResult Int :=
  fun _ _ => .otherError ("division by zero".toList)

/-- An external evaluator raising `NameNotDefined`, as simpleeval does on
an expression that references an unbound name. -/
def undefinedNameEvaluator : List Char → Unit → SimpleResult Int :=
  fun _ _ => .nameNotDefined ("name foo is not defined".toList)

/-- An external evaluator that would happily return a value for anything
(used to show the pre-filter rejects dangerous text no matter what the
structured evaluator would do). -/
def benignEvaluator : List Char → Unit → SimpleResult Int :=
  fun _ _ => .ok 0

/-- The sandbox rejection set named by the claim: import invocation,
interpreter-internals attribute chains, lambda introduction, dynamic code
compilation, file open. -/
def claimDangerousPats : List (List Char) :=
  ["__import__", "__class__", "__base__", "__subclasses__", "__globals__",
   "lambda", "eval", "exec", "compile", "open"].map String.toList

/-! ### Lemmas about the execution loop -/

/-- With any non-FIRST_MATCH strategy the inner loop scans every rule and
collects exactly the non-null action values of the condition-true rules. -/
theorem scanFact_all_eq_filterMap {α β : Type} (f : α)
    (rules : List (Rule α β)) :
    scanFact false rules f = rules.filterMap (ruleOutput f) := by
  induction rules with
  | nil => rfl
  | cons r rest ih =>
    simp only [scanFact, List.filterMap_cons, ruleOutput]
    cases hc : r.condition f with
    | error m => simpa using ih
    | ok b =>
      cases b with
      | false => simpa using ih
      | true =>
        cases ha : r.action f with
        | error m => simpa using ih
        | ok v =>
          cases v with
          | none => simpa using ih
          | some x => simpa using ih

/-- The outer loop under a non-FIRST_MATCH strategy produces the
ALL_MATCHES outputs. -/
theorem runFacts_all_eq {α β : Type} (rules : List (Rule α β))
    (facts : List α) :
    runFacts false rules facts = allMatchesOutputs rules facts := by
  induction facts with
  | nil => rfl
  | cons f rest ih =>
    simp only [runFacts, allMatchesOutputs, List.flatMap_cons,
      scanFact_all_eq_filterMap]
    rw [ih]
    rfl

/-- Under FIRST_MATCH, if no rule raises on the fact, the inner loop stops
at the first condition-true rule and yields its non-null action value. -/
theorem scanFact_first_eq {α β : Type} (f : α) (rules : List (Rule α β))
    (hok : ∀ r ∈ rules,
      (∃ b, r.condition f = .ok b) ∧ (∃ v, r.action f = .ok v)) :
    scanFact true rules f = firstOutput rules f := by
  induction rules with
  | nil => rfl
  | cons r rest ih =>
    obtain ⟨⟨b, hb⟩, v, hv⟩ := hok r (List.mem_cons_self r rest)
    have hrest := fun x hx => hok x (List.mem_cons_of_mem r hx)
    cases b with
    | false =>
      simp only [scanFact, hb, firstOutput, List.find?_cons, condTrue]
      exact ih hrest
    | true =>
      cases v with
      | none => simp [scanFact, hb, hv, firstOutput, List.find?_cons, condTrue]
      | some x => simp [scanFact, hb, hv, firstOutput, List.find?_cons, condTrue]

/-- The outer loop under FIRST_MATCH produces the FIRST_MATCH outputs when
no rule raises on any pending fact. -/
theorem runFacts_first_eq {α β : Type} (rules : List (Rule α β))
    (facts : List α)
    (hok : ∀ f ∈ facts, ∀ r ∈ rules,
      (∃ b, r.condition f = .ok b) ∧ (∃ v, r.action f = .ok v)) :
    runFacts true rules facts = firstMatchOutputs rules facts := by
  induction facts with
  | nil => rfl
  | cons f rest ih =>
    simp only [runFacts, firstMatchOutputs, List.flatMap_cons]
    rw [scanFact_first_eq f rules (hok f (List.mem_cons_self f rest)),
      ih (fun g hg => hok g (List.mem_cons_of_mem f hg))]
    rfl

/-- Under FIRST_MATCH the inner loop appends at most one result per fact,
whether or not any rule raises: the first successful append breaks. -/
theorem scanFact_true_length_le {α β : Type} (rules : List (Rule α β))
    (f : α) : (scanFact true rules f).length ≤ 1 := by
  induction rules with
  | nil => simp [scanFact]
  | cons r rest ih =>
    simp only [scanFact]
    cases r.condition f with
    | error m => exact ih
    | ok b =>
      cases b with
      | false => exact ih
      | true =>
        cases r.action f with
        | error m => exact ih
        | ok v => cases v <;> simp

/-- Under FIRST_MATCH the batch yields at most one result per pending
fact, whether or not any rule raises. -/
theorem runFacts_true_length_le {α β : Type} (rules : List (Rule α β))
    (facts : List α) :
    (runFacts true rules facts).length ≤ facts.length := by
  induction facts with
  | nil => simp [runFacts]
  | cons f rest ih =>
    simp only [runFacts, List.length_append, List.length_cons]
    have := scanFact_true_length_le rules f
    omega

/-- A fact contributes at most one FIRST_MATCH output. -/
theorem firstOutput_length_le {α β : Type} (rules : List (Rule α β))
    (f : α) : (firstOutput rules f).length ≤ 1 := by
  unfold firstOutput
  cases rules.find? (condTrue f) with
  | none => simp
  | some r =>
    cases h : r.action f with
    | error m => simp [h]
    | ok v => cases v <;> simp [h]

/-- FIRST_MATCH yields at most one result per pending fact. -/
theorem firstMatchOutputs_length_le {α β : Type} (rules : List (Rule α β))
    (facts : List α) :
    (firstMatchOutputs rules facts).length ≤ facts.length := by
  induction facts with
  | nil => simp [firstMatchOutputs]
  | cons f rest ih =>
    simp only [firstMatchOutputs, List.flatMap_cons, List.length_append,
      List.length_cons] at ih ⊢
    have := firstOutput_length_le rules f
    omega

/-- A rule that raises on a fact (in its condition, or in its action after
a true condition) contributes nothing to the scan of that fact and does
not stop it: removing the rule leaves the scan's output unchanged, under
either strategy. -/
theorem scanFact_skip_failing {α β : Type} (fm : Bool) (f : α)
    (bad : Rule α β)
    (hbad : (∃ m, bad.condition f = .error m) ∨
      (bad.condition f = Except.ok true ∧ ∃ m, bad.action f = .error m)) :
    ∀ pre post : List (Rule α β),
      scanFact fm (pre ++ bad :: post) f = scanFact fm (pre ++ post) f := by
  intro pre
  induction pre with
  | nil =>
    intro post
    rcases hbad with ⟨m, hm⟩ | ⟨hc, m, hm⟩
    · simp [scanFact, hm]
    · simp [scanFact, hc, hm]
  | cons r pre ih =>
    intro post
    simp only [List.cons_append, scanFact]
    cases hc : r.condition f with
    | error m => exact ih post
    | ok b =>
      cases b with
      | false => exact ih post
      | true =>
        cases ha : r.action f with
        | error m => exact ih post
        | ok v =>
          cases v with
          | none =>
            cases fm with
            | false => simpa using ih post
            | true => rfl
          | some x =>
            cases fm with
            | false => simpa using ih post
            | true => rfl

/-- Removing a rule that raises on every pending fact leaves the whole
batch output unchanged. -/
theorem runFacts_skip_failing {α β : Type} (fm : Bool) (bad : Rule α β)
    (pre post : List (Rule α β)) (facts : List α)
    (hbad : ∀ f ∈ facts, (∃ m, bad.condition f = .error m) ∨
      (bad.condition f = Except.ok true ∧ ∃ m, bad.action f = .error m)) :
    runFacts fm (pre ++ bad :: post) facts =
      runFacts fm (pre ++ post) facts := by
  induction facts with
  | nil => rfl
  | cons f rest ih =>
    simp only [runFacts]
    rw [scanFact_skip_failing fm f bad (hbad f (List.mem_cons_self f rest)),
      ih (fun g hg => hbad g (List.mem_cons_of_mem f hg))]

/-- A property value other than the exact string FIRST_MATCH never
compares equal to it. -/
theorem eqStr_first_match_false {v : PropValue}
    (h : v ≠ PropValue.str "FIRST_MATCH") :
    v.eqStr "FIRST_MATCH" = false := by
  cases v with
  | str t =>
    simp only [PropValue.eqStr, beq_eq_false_iff_ne, ne_eq]
    intro ht
    exact h (by rw [ht])
  | int n => rfl
  | bool b => rfl

/-! ### Lemmas about the construction-time sort -/

/-- Inserting a rule of priority `p` into a list puts it in front of the
equal-priority rules already there: the elements it is placed behind all
have strictly greater priority, so the priority-`p` sublist gains the new
rule at its front. -/
theorem orderedInsert_filter_pos {α β : Type} (a : Rule α β) (p : Int)
    (ha : a.priority = p) :
    ∀ l : List (Rule α β),
      (List.orderedInsert byPriorityDesc a l).filter
          (fun r => r.priority == p) =
        a :: l.filter (fun r => r.priority == p) := by
  intro l
  induction l with
  | nil => simp [List.orderedInsert, ha]
  | cons x xs ih =>
    simp only [List.orderedInsert]
    by_cases h : byPriorityDesc a x
    · simp [h, ha]
    · have hx : (x.priority == p) = false := by
        rw [beq_eq_false_iff_ne]
        intro hxp
        exact h (le_of_eq (by rw [hxp, ha]))
      simp [h, List.filter_cons, hx, ih]

/-- Inserting a rule of a different priority leaves the priority-`p`
sublist unchanged. -/
theorem orderedInsert_filter_neg {α β : Type} (a : Rule α β) (p : Int)
    (ha : a.priority ≠ p) :
    ∀ l : List (Rule α β),
      (List.orderedInsert byPriorityDesc a l).filter
          (fun r => r.priority == p) =
        l.filter (fun r => r.priority == p) := by
  intro l
  have hafalse : (a.priority == p) = false := beq_eq_false_iff_ne.mpr ha
  induction l with
  | nil => simp [List.orderedInsert, hafalse]
  | cons x xs ih =>
    simp only [List.orderedInsert]
    by_cases h : byPriorityDesc a x
    · simp [h, List.filter_cons, hafalse]
    · simp [h, List.filter_cons, ih]

/-- Stability of the construction-time sort: for every priority `p`, the
rules of priority `p` appear in the sorted output exactly as they appeared
in the input. -/
theorem insertionSort_filter_priority {α β : Type} (p : Int) :
    ∀ l : List (Rule α β),
      (l.insertionSort byPriorityDesc).filter (fun r => r.priority == p) =
        l.filter (fun r => r.priority == p) := by
  intro l
  induction l with
  | nil => rfl
  | cons a as ih =>
    simp only [List.insertionSort]
    by_cases ha : a.priority = p
    · rw [orderedInsert_filter_pos a p ha, ih, List.filter_cons,
        if_pos (by simp [ha])]
    · rw [orderedInsert_filter_neg a p ha, ih, List.filter_cons,
        if_neg (by simp [ha])]

/-! ### Lemmas about the sandbox's textual pre-filter -/

/-- Every character of a matched pattern occurs in the scanned string. -/
theorem charListPrefix_mem {p s : List Char}
    (h : charListPrefix p s = true) : ∀ c ∈ p, c ∈ s := by
  induction p generalizing s with
  | nil => intro c hc; exact absurd hc (List.not_mem_nil c)
  | cons a as ih =>
    cases s with
    | nil => simp [charListPrefix] at h
    | cons b bs =>
      rw [charListPrefix, Bool.and_eq_true] at h
      intro c hc
      rcases List.mem_cons.mp hc with rfl | hc'
      · exact List.mem_cons.mpr (Or.inl (eq_of_beq h.1))
      · exact List.mem_cons_of_mem b (ih h.2 c hc')

/-- Every character of a contained pattern occurs in the containing
string. -/
theorem charListInfix_mem {p s : List Char}
    (h : charListInfix p s = true) : ∀ c ∈ p, c ∈ s := by
  induction s with
  | nil =>
    cases p with
    | nil => intro c hc; exact absurd hc (List.not_mem_nil c)
    | cons a as => simp [charListInfix, charListPrefix] at h
  | cons b bs ih =>
    rw [charListInfix, Bool.or_eq_true] at h
    rcases h with h | h
    · exact charListPrefix_mem h
    · intro c hc
      exact List.mem_cons_of_mem b (ih h c hc)

/-- Character-wise mapping preserves the prefix test. -/
theorem charListPrefix_map (f : Char → Char) {p s : List Char}
    (h : charListPrefix p s = true) :
    charListPrefix (p.map f) (s.map f) = true := by
  induction p generalizing s with
  | nil => rfl
  | cons a as ih =>
    cases s with
    | nil => simp [charListPrefix] at h
    | cons b bs =>
      rw [charListPrefix, Bool.and_eq_true] at h
      rw [List.map_cons, List.map_cons, charListPrefix, Bool.and_eq_true]
      exact ⟨beq_iff_eq.mpr (by rw [eq_of_beq h.1]), ih h.2⟩

/-- Character-wise mapping preserves the substring test. -/
theorem charListInfix_map (f : Char → Char) {p s : List Char}
    (h : charListInfix p s = true) :
    charListInfix (p.map f) (s.map f) = true := by
  induction s with
  | nil =>
    cases p with
    | nil => rfl
    | cons a as => simp [charListInfix, charListPrefix] at h
  | cons b bs ih =>
    rw [charListInfix, Bool.or_eq_true] at h
    rw [List.map_cons, charListInfix, Bool.or_eq_true]
    rcases h with h | h
    · exact Or.inl (by simpa using charListPrefix_map f h)
    · exact Or.inr (ih h)

/-- If stripping leaves nothing, every character was whitespace. -/
theorem pyStrip_all_space {s : List Char} (h : pyStrip s = []) :
    ∀ c ∈ s, isPySpace c = true := by
  unfold pyStrip at h
  rw [List.reverse_eq_nil_iff, List.dropWhile_eq_nil_iff] at h
  intro c hc
  have hsplit := List.takeWhile_append_dropWhile (p := isPySpace) (l := s)
  rw [← hsplit] at hc
  rcases List.mem_append.mp hc with hc' | hc'
  · exact List.mem_takeWhile_imp hc'
  · exact h c (List.mem_reverse.mpr hc')

/-- A string that contains a non-whitespace character does not strip to
the empty string. -/
theorem pyStrip_ne_nil {s : List Char} {c : Char} (hc : c ∈ s)
    (hns : isPySpace c = false) : pyStrip s ≠ [] := by
  intro h
  rw [pyStrip_all_space h c hc] at hns
  exact absurd hns (by simp)

/-- Evaluation of `execute` on an open session, in terms of the strategy
lookup and the nested loop. -/
theorem execute_unfold {α β : Type} (s : MachineRuleSession α β)
    (hopen : s.closed = false) :
    s.execute = Except.ok
      (runFacts ((Properties.getD s.execution_set.get_properties "strategy"
            (PropValue.str "ALL_MATCHES")).eqStr "FIRST_MATCH")
          s.execution_set.get_rules s.facts,
        { s with
            results := runFacts
              ((Properties.getD s.execution_set.get_properties "strategy"
                (PropValue.str "ALL_MATCHES")).eqStr "FIRST_MATCH")
              s.execution_set.get_rules s.facts,
            facts := if s.stateless then [] else s.facts }) := by
  unfold MachineRuleSession.execute
  rw [hopen]
  rfl

/-- C1. For every open session whose bound rule set has no strategy
property or strategy ALL_MATCHES, `execute()` returns exactly the
non-null action values of the condition-true rules, ordered by fact
arrival order and, within a fact, by the rule set's priority-descending
(registration-order-stable) rule order. -/
theorem execute_all_matches_ordering {α β : Type}
    (s : MachineRuleSession α β) (n : String) (rs : List (Rule α β))
    (props : Properties)
    (hes : s.execution_set = RuleExecutionSet.make n rs props)
    (hopen : s.closed = false)
    (hstrat : props.lookup "strategy" = none ∨
      props.lookup "strategy" = some (PropValue.str "ALL_MATCHES")) :
    (s.execute).map Prod.fst =
      Except.ok (allMatchesOutputs (sortRulesDesc rs) s.facts) := by
  rw [execute_unfold s hopen]
  have hflag : (Properties.getD s.execution_set.get_properties "strategy"
      (PropValue.str "ALL_MATCHES")).eqStr "FIRST_MATCH" = false := by
    rw [hes]
    rcases hstrat with h | h <;>
      simp [RuleExecutionSet.get_properties, RuleExecutionSet.make,
        Properties.getD, h, PropValue.eqStr]
  rw [Except.map, hflag, hes]
  show Except.ok (runFacts false (sortRulesDesc rs) s.facts) = _
  rw [runFacts_all_eq]

/-- C1 witness: three always-matching rules registered with priorities
`[1, 10, 5]` and no strategy property yield, for the single pending fact,
the three results in priority-descending order `[10, 5, 1]`. -/
theorem execute_all_matches_ordering_witness :
    allMatchesSession.execution_set =
        RuleExecutionSet.make "demo" threeRules []
      ∧ allMatchesSession.closed = false
      ∧ (([] : Properties).lookup "strategy" = none ∨
          ([] : Properties).lookup "strategy" =
            some (PropValue.str "ALL_MATCHES"))
      ∧ (allMatchesSession.execute).map Prod.fst =
          Except.ok (allMatchesOutputs (sortRulesDesc threeRules)
            allMatchesSession.facts)
      ∧ allMatchesOutputs (sortRulesDesc threeRules) [()] = [10, 5, 1] :=
  ⟨rfl, rfl, Or.inl rfl,
    execute_all_matches_ordering allMatchesSession "demo" threeRules []
      rfl rfl (Or.inl rfl), rfl⟩

/-- C2. Under strategy FIRST_MATCH, `execute()` yields at most one result
per pending fact (unconditionally — the first successful append breaks);
and when no rule raises on a pending fact, each fact is scanned in
priority-descending order, scanning stops at the first rule whose
condition is true, and that rule's non-null action value is the fact's
result. -/
theorem execute_first_match_short_circuit {α β : Type}
    (s : MachineRuleSession α β) (n : String) (rs : List (Rule α β))
    (props : Properties)
    (hes : s.execution_set = RuleExecutionSet.make n rs props)
    (hopen : s.closed = false)
    (hstrat : props.lookup "strategy" =
      some (PropValue.str "FIRST_MATCH")) :
    (∃ res s₁, s.execute = Except.ok (res, s₁) ∧
        res.length ≤ s.facts.length)
      ∧ ((∀ f ∈ s.facts, ∀ r ∈ rs,
            (∃ b, r.condition f = Except.ok b) ∧
              (∃ v, r.action f = Except.ok v)) →
          (s.execute).map Prod.fst =
            Except.ok (firstMatchOutputs (sortRulesDesc rs) s.facts)) := by
  have hflag : (Properties.getD s.execution_set.get_properties "strategy"
      (PropValue.str "ALL_MATCHES")).eqStr "FIRST_MATCH" = true := by
    rw [hes]
    simp [RuleExecutionSet.get_properties, RuleExecutionSet.make,
      Properties.getD, hstrat, PropValue.eqStr]
  constructor
  · rw [execute_unfold s hopen]
    refine ⟨_, _, rfl, ?_⟩
    rw [hflag]
    exact runFacts_true_length_le _ _
  · intro hok
    rw [execute_unfold s hopen, Except.map, hflag, hes]
    show Except.ok (runFacts true (sortRulesDesc rs) s.facts) = _
    rw [runFacts_first_eq (sortRulesDesc rs) s.facts
      (fun f hf r hr =>
        hok f hf r ((List.mem_insertionSort byPriorityDesc).mp hr))]

/-- C2 witness: three always-matching, never-raising rules with priorities
10, 5, 1 under FIRST_MATCH yield exactly one result for the single
pending fact, produced by the priority-10 rule. -/
theorem execute_first_match_short_circuit_witness :
    firstMatchSession.execution_set =
        RuleExecutionSet.make "demo" threeRules
          [("strategy", PropValue.str "FIRST_MATCH")]
      ∧ firstMatchSession.closed = false
      ∧ ([("strategy", PropValue.str "FIRST_MATCH")] :
          Properties).lookup "strategy" = some (PropValue.str "FIRST_MATCH")
      ∧ (∃ res s₁, firstMatchSession.execute = Except.ok (res, s₁) ∧
          res.length ≤ firstMatchSession.facts.length)
      ∧ (firstMatchSession.execute).map Prod.fst =
          Except.ok (firstMatchOutputs (sortRulesDesc threeRules)
            firstMatchSession.facts)
      ∧ firstMatchOutputs (sortRulesDesc threeRules) [()] = [10] := by
  have hok : ∀ f ∈ firstMatchSession.facts, ∀ r ∈ threeRules,
      (∃ b, r.condition f = Except.ok b) ∧
        (∃ v, r.action f = Except.ok v) := by
    intro f _ r hr
    simp only [threeRules, alwaysRule, List.mem_cons,
      List.not_mem_nil, or_false] at hr
    rcases hr with rfl | rfl | rfl
    · exact ⟨⟨true, rfl⟩, some 1, rfl⟩
    · exact ⟨⟨true, rfl⟩, some 10, rfl⟩
    · exact ⟨⟨true, rfl⟩, some 5, rfl⟩
  have hth := execute_first_match_short_circuit firstMatchSession "demo"
    threeRules [("strategy", PropValue.str "FIRST_MATCH")] rfl rfl rfl
  exact ⟨rfl, rfl, rfl, hth.1, hth.2 hok, rfl⟩

/-- C5. A `RuleExecutionSet` stores (and `get_rules()` returns) its rules
sorted by priority descending; equal priorities keep their relative input
order (stable sort); the stored list is a permutation of the input; and
input priorities `[1, 10, 5]` come back as `[10, 5, 1]`. (The embedding
is purely functional, so the stored list is never mutated afterwards.) -/
theorem rule_set_sorted_by_priority_stable {α β : Type} (n : String)
    (rules : List (Rule α β)) (props : Properties) :
    ((RuleExecutionSet.make n rules props).get_rules).Pairwise
        (fun a b => b.priority ≤ a.priority)
      ∧ (∀ p : Int,
          ((RuleExecutionSet.make n rules props).get_rules).filter
              (fun r => r.priority == p) =
            rules.filter (fun r => r.priority == p))
      ∧ List.Perm (RuleExecutionSet.make n rules props).get_rules rules
      ∧ ((RuleExecutionSet.make "demo" threeRules []).get_rules).map
          (fun r => r.priority) = [10, 5, 1] :=
  ⟨List.sorted_insertionSort byPriorityDesc rules,
    fun p => insertionSort_filter_priority p rules,
    List.perm_insertionSort byPriorityDesc rules,
    by decide⟩

/-- C6. A rule that raises on every pending fact (in its condition, or in
its action after a true condition) never aborts `execute()`: the call
still succeeds, the session stays open, and the returned results are
exactly those of the same session without that rule — every other
matching rule's result is still produced, for facts before and after the
failure alike. -/
theorem execute_isolates_failing_rule {α β : Type}
    (s : MachineRuleSession α β) (pre post : List (Rule α β))
    (bad : Rule α β) (hopen : s.closed = false)
    (hrules : s.execution_set.rules = pre ++ bad :: post)
    (hbad : ∀ f ∈ s.facts, (∃ m, bad.condition f = .error m) ∨
      (bad.condition f = Except.ok true ∧ ∃ m, bad.action f = .error m)) :
    ∃ res sOut, s.execute = Except.ok (res, sOut) ∧ sOut.closed = false
      ∧ (({ s with execution_set :=
            { s.execution_set with rules := pre ++ post } } :
          MachineRuleSession α β).execute).map Prod.fst =
        Except.ok res := by
  rw [execute_unfold s hopen,
    execute_unfold ({ s with execution_set :=
      { s.execution_set with rules := pre ++ post } }) hopen]
  refine ⟨_, _, rfl, hopen, ?_⟩
  rw [Except.map]
  show Except.ok (runFacts _ (pre ++ post) s.facts) = _
  rw [show RuleExecutionSet.get_rules s.execution_set =
      pre ++ bad :: post from hrules,
    runFacts_skip_failing _ bad pre post s.facts hbad]
  rfl

/-- C6 witness: a rule whose condition always raises, placed before an
always-matching rule, does not suppress the matching rule's result: the
session still returns `[42]`. -/
theorem execute_isolates_failing_rule_witness :
    isolationSession.closed = false
      ∧ isolationSession.execution_set.rules =
          [] ++ raisingRule :: [matchingRule]
      ∧ (∀ f ∈ isolationSession.facts,
          (∃ m, raisingRule.condition f = .error m) ∨
            (raisingRule.condition f = Except.ok true ∧
              ∃ m, raisingRule.action f = .error m))
      ∧ (∃ res sOut, isolationSession.execute = Except.ok (res, sOut)
          ∧ sOut.closed = false
          ∧ (({ isolationSession with execution_set :=
                { isolationSession.execution_set with
                    rules := [] ++ [matchingRule] } } :
              MachineRuleSession Unit Int).execute).map Prod.fst =
            Except.ok res)
      ∧ (isolationSession.execute).map Prod.fst = Except.ok [42] :=
  ⟨rfl, rfl, fun _ _ => Or.inl ⟨"boom", rfl⟩,
    execute_isolates_failing_rule isolationSession [] [matchingRule]
      raisingRule rfl rfl (fun _ _ => Or.inl ⟨"boom", rfl⟩),
    rfl⟩

/-- C7. After `execute()` the pending-fact buffer is empty iff the session
is stateless, and unchanged otherwise; `add_facts` only appends; `reset`
and `close` clear the facts. -/
theorem execute_facts_frame {α β : Type} (s : MachineRuleSession α β)
    (hopen : s.closed = false) :
    (s.execute).map (fun p => p.2.facts) =
        Except.ok (if s.stateless then [] else s.facts)
      ∧ (∀ fs, (s.add_facts fs).map MachineRuleSession.facts =
          Except.ok (s.facts ++ fs))
      ∧ (s.reset).map MachineRuleSession.facts = Except.ok ([] : List α)
      ∧ (s.close).facts = [] := by
  refine ⟨?_, ?_, ?_, rfl⟩
  · rw [execute_unfold s hopen]; rfl
  · intro fs
    unfold MachineRuleSession.add_facts
    rw [hopen]
    rfl
  · unfold MachineRuleSession.reset
    rw [hopen]
    rfl

/-- C7 witness: the stateless session's pending facts are empty after
`execute()`, and (extra conjunct) the stateful session with the same rule
set retains its fact. -/
theorem execute_facts_frame_witness :
    statelessSession.closed = false
      ∧ (statelessSession.execute).map (fun p => p.2.facts) =
          Except.ok (if statelessSession.stateless then []
            else statelessSession.facts)
      ∧ (∀ fs, (statelessSession.add_facts fs).map
          MachineRuleSession.facts =
            Except.ok (statelessSession.facts ++ fs))
      ∧ (statelessSession.reset).map MachineRuleSession.facts =
          Except.ok ([] : List Unit)
      ∧ (statelessSession.close).facts = []
      ∧ (statelessSession.execute).map (fun p => p.2.facts) =
          Except.ok []
      ∧ (allMatchesSession.execute).map (fun p => p.2.facts) =
          Except.ok [()] :=
  ⟨rfl, (execute_facts_frame statelessSession rfl).1,
    (execute_facts_frame statelessSession rfl).2.1,
    (execute_facts_frame statelessSession rfl).2.2.1,
    (execute_facts_frame statelessSession rfl).2.2.2, rfl, rfl⟩

/-- C8. The results buffer is reset at the start of each `execute()`
call: the returned sequence does not depend on the previous results
buffer, the session's stored results equal the returned ones, and a
second `execute()` returns only the results of the facts then pending
(the same results again for a stateful session, none for a stateless
one) — results never accumulate across calls. (The Python return value is
`self.results.copy()`; copying is identity on immutable values here.) -/
theorem execute_results_do_not_accumulate {α β : Type}
    (s : MachineRuleSession α β) (hopen : s.closed = false) :
    (∀ r₀ : List β,
        (({ s with results := r₀ } :
          MachineRuleSession α β).execute).map Prod.fst =
          (s.execute).map Prod.fst)
      ∧ ∀ res s₁, s.execute = Except.ok (res, s₁) →
          s₁.results = res ∧ (s₁.execute).map Prod.fst =
            Except.ok (if s.stateless then [] else res) := by
  obtain ⟨es, fs0, rs0, cl, st⟩ := s
  have hcl : cl = false := hopen
  subst hcl
  constructor
  · intro r₀
    rfl
  · intro res s₁ hex
    rw [execute_unfold _ rfl] at hex
    simp only [Except.ok.injEq, Prod.mk.injEq] at hex
    obtain ⟨h1, h2⟩ := hex
    subst h1 h2
    refine ⟨rfl, ?_⟩
    cases st with
    | true =>
      rw [execute_unfold _ rfl]
      rfl
    | false =>
      rw [execute_unfold _ rfl]
      rfl

/-- C8 witness: instantiation at the concrete open stateful session. -/
theorem execute_results_do_not_accumulate_witness :
    allMatchesSession.closed = false
      ∧ (∀ r₀ : List Int,
          (({ allMatchesSession with results := r₀ } :
            MachineRuleSession Unit Int).execute).map Prod.fst =
            (allMatchesSession.execute).map Prod.fst)
      ∧ ∀ res s₁, allMatchesSession.execute = Except.ok (res, s₁) →
          s₁.results = res ∧ (s₁.execute).map Prod.fst =
            Except.ok (if allMatchesSession.stateless then [] else res) :=
  ⟨rfl, (execute_results_do_not_accumulate allMatchesSession rfl).1,
    (execute_results_do_not_accumulate allMatchesSession rfl).2⟩

/-- C9. `close()` clears both buffers and marks the session closed; on
the closed session, `add_facts`, `execute` and `reset` all fail with the
session-closed error, and a second `close()` is a no-op returning the
identical state. -/
theorem closed_session_guard {α β : Type} (s : MachineRuleSession α β) :
    (s.close).facts = [] ∧ (s.close).results = []
      ∧ (s.close).closed = true
      ∧ (∀ fs, (s.close).add_facts fs =
          Except.error "Session is closed")
      ∧ (s.close).execute = Except.error "Session is closed"
      ∧ (s.close).reset = Except.error "Session is closed"
      ∧ (s.close).close = s.close :=
  ⟨rfl, rfl, rfl, fun _ => rfl, rfl, rfl, rfl⟩

/-- C10. The strategy is read from the properties under the key
`strategy`; any stored value other than the exact string `FIRST_MATCH` —
lowercase variants, unrecognized strings, non-string values — makes
`execute()` do the full ALL_MATCHES scan, and no error is raised. -/
theorem unknown_strategy_defaults_to_all_matches {α β : Type}
    (s : MachineRuleSession α β) (v : PropValue)
    (hopen : s.closed = false)
    (hv : s.execution_set.properties.lookup "strategy" = some v)
    (hne : v ≠ PropValue.str "FIRST_MATCH") :
    (s.execute).map Prod.fst =
      Except.ok (allMatchesOutputs s.execution_set.get_rules s.facts) := by
  rw [execute_unfold s hopen]
  have hflag : (Properties.getD s.execution_set.get_properties "strategy"
      (PropValue.str "ALL_MATCHES")).eqStr "FIRST_MATCH" = false := by
    unfold Properties.getD RuleExecutionSet.get_properties
    rw [hv]
    exact eqStr_first_match_false hne
  rw [Except.map, hflag]
  show Except.ok
    (runFacts false s.execution_set.get_rules s.facts) = _
  rw [runFacts_all_eq]

/-- C10 witness: the lowercase string `first_match` is not recognized:
the session does the full scan and returns all three results. -/
theorem unknown_strategy_defaults_to_all_matches_witness :
    lowercaseStrategySession.closed = false
      ∧ lowercaseStrategySession.execution_set.properties.lookup
          "strategy" = some (PropValue.str "first_match")
      ∧ PropValue.str "first_match" ≠ PropValue.str "FIRST_MATCH"
      ∧ (lowercaseStrategySession.execute).map Prod.fst =
          Except.ok (allMatchesOutputs
            lowercaseStrategySession.execution_set.get_rules
            lowercaseStrategySession.facts)
      ∧ (lowercaseStrategySession.execute).map Prod.fst =
          Except.ok [10, 5, 1] :=
  ⟨rfl, rfl, by decide,
    unknown_strategy_defaults_to_all_matches lowercaseStrategySession
      (PropValue.str "first_match") rfl rfl (by decide),
    rfl⟩

/-- C3 counterexample. On the expression `1/0` — a runtime division
error, not a security violation — `safe_eval` raises `SecurityError`
(the SecurityViolation type), not an EvaluationError distinct from it:
the generic `except` clause wraps every non-syntax evaluation failure in
`SecurityError`. -/
theorem safe_eval_runtime_error_is_security_error_cex :
    safe_eval divByZeroEvaluator ("1/0".toList) () =
        EvalOutcome.securityError ("Expression evaluation failed: ".toList
          ++ "division by zero".toList)
      ∧ (safe_eval divByZeroEvaluator ("1/0".toList) ()).isSecurityError =
          true :=
  ⟨rfl, rfl⟩

/-- C3 (amended). For every expression (non-empty after stripping) whose
structured evaluation fails at runtime for a reason other than a
detected-dangerous pattern — an undefined name, a division by zero, a
type error, or any other non-syntax exception — `safe_eval` fails with
`SecurityError`, the same exception type as security violations (only
syntax errors and empty expressions become `ValueError`). -/
theorem safe_eval_wraps_runtime_errors {V N : Type}
    (evaluator : List Char → N → SimpleResult V) (expression : List Char)
    (names : N) (m : List Char) (hne : pyStrip expression ≠ [])
    (hfail : evaluator expression names = SimpleResult.otherError m ∨
      evaluator expression names = SimpleResult.nameNotDefined m) :
    (safe_eval evaluator expression names).isSecurityError = true := by
  unfold safe_eval
  rw [if_neg hne]
  cases hfind : dangerous_patterns.find?
      (fun p => charListInfix (pyLower p) (pyLower expression)) with
  | some p => rfl
  | none => rcases hfail with hf | hf <;> rw [hf] <;> rfl

/-- C3 witness: an undefined name (simpleeval's `NameNotDefined`) is also
wrapped in `SecurityError`. -/
theorem safe_eval_wraps_runtime_errors_witness :
    pyStrip ("foo".toList) ≠ []
      ∧ (undefinedNameEvaluator ("foo".toList) () =
            SimpleResult.otherError ("name foo is not defined".toList) ∨
          undefinedNameEvaluator ("foo".toList) () =
            SimpleResult.nameNotDefined ("name foo is not defined".toList))
      ∧ (safe_eval undefinedNameEvaluator ("foo".toList) ()).isSecurityError
          = true :=
  ⟨by decide, Or.inr rfl,
    safe_eval_wraps_runtime_errors undefinedNameEvaluator ("foo".toList) ()
      ("name foo is not defined".toList) (by decide) (Or.inr rfl)⟩

/-- C4. Every expression containing one of the claim's dangerous
substrings — `__import__`, `__class__`, `__base__`, `__subclasses__`,
`__globals__`, `lambda`, `eval`, `exec`, `compile`, `open` — is rejected
by `safe_eval` with `SecurityError`, whatever the bindings and whatever
the structured evaluator would have produced: the textual pre-filter
fires before evaluation. -/
theorem safe_eval_rejects_dangerous_patterns {V N : Type}
    (evaluator : List Char → N → SimpleResult V) (expression : List Char)
    (names : N)
    (hdanger : ∃ p ∈ claimDangerousPats,
      charListInfix p expression = true) :
    (safe_eval evaluator expression names).isSecurityError = true := by
  obtain ⟨p, hp, hinf⟩ := hdanger
  have hfacts : ∀ q ∈ claimDangerousPats, q ∈ dangerous_patterns ∧
      q ≠ [] ∧ ∀ c ∈ q, isPySpace c = false := by decide
  obtain ⟨hmem, hnil, hns⟩ := hfacts p hp
  obtain ⟨c, hc⟩ := List.exists_mem_of_ne_nil p hnil
  have hstrip : pyStrip expression ≠ [] :=
    pyStrip_ne_nil (charListInfix_mem hinf c hc) (hns c hc)
  have hpred : charListInfix (pyLower p) (pyLower expression) = true :=
    charListInfix_map Char.toLower hinf
  unfold safe_eval
  rw [if_neg hstrip]
  cases hfind : dangerous_patterns.find?
      (fun q => charListInfix (pyLower q) (pyLower expression)) with
  | some q => rfl
  | none => exact absurd hpred (by simpa using List.find?_eq_none.mp hfind p hmem)

/-- C4 witness: a lambda introduction is rejected even when the external
evaluator would have evaluated it without complaint, and with no
bindings. -/
theorem safe_eval_rejects_dangerous_patterns_witness :
    (∃ p ∈ claimDangerousPats,
        charListInfix p ("lambda x: x + 1".toList) = true)
      ∧ (safe_eval benignEvaluator ("lambda x: x + 1".toList)
          ()).isSecurityError = true :=
  ⟨by decide,
    safe_eval_rejects_dangerous_patterns benignEvaluator
      ("lambda x: x + 1".toList) () (by decide)⟩

end MachineRules
